import Mathlib

/-!
Verification of the Command_Parser repository: a C header (`src/my_header.h`)
declaring an `Led` enumeration, an `LedState` enumeration, a `Command` result
structure, and the prototype `struct Command parse_uart(const uint8_t *input,
uint32_t length);`.  The data model below is a shallow embedding of the
header; the parsing function, whose implementation is absent from the
repository, is modelled from the specification.
-/

/-- Embedding of `typedef enum Led { Led1, Led2, Led3, Led4 } Led;`
from `src/my_header.h`. -/
inductive Led where
  | Led1
  | Led2
  | Led3
  | Led4
deriving DecidableEq, Fintype

export Led (Led1 Led2 Led3 Led4)

/-- Embedding of `typedef enum LedState { On, Off } LedState;`
from `src/my_header.h`. -/
inductive LedState where
  | On
  | Off
deriving DecidableEq, Fintype

export LedState (On Off)

/-- Embedding of `typedef struct Command { bool success; enum Led led;
enum LedState state; } Command;` from `src/my_header.h`. -/
structure Command where
  success : Bool
  led : Led
  state : LedState
deriving DecidableEq

/-- Underlying C integer value of each `Led` enumerator: the header gives no
explicit values, so C assigns consecutive values starting at 0. -/
def ledValue : Led → Nat
  | Led1 => 0
  | Led2 => 1
  | Led3 => 2
  | Led4 => 3

/-- Underlying C integer value of each `LedState` enumerator: the header gives
no explicit values, so C assigns `On = 0`, `Off = 1`. -/
def stateValue : LedState → Nat
  | On => 0
  | Off => 1

/-- The `Led` enumerator carrying a given underlying integer value, if any. -/
def ledOfValue (n : Nat) : Option Led :=
  match n with
  | 0 => some Led1
  | 1 => some Led2
  | 2 => some Led3
  | 3 => some Led4
  | _ => none

/-- The `LedState` enumerator carrying a given underlying integer value. -/
def stateOfValue (n : Nat) : Option LedState :=
  match n with
  | 0 => some On
  | 1 => some Off
  | _ => none

/-- A `Command` built from raw C integer field values, as a zero- or
value-initialisation of the struct would: a C `bool` is false exactly on 0,
and the enum fields take the enumerator with that underlying value. -/
def commandOfValues (b l s : Nat) : Option Command :=
  match ledOfValue l, stateOfValue s with
  | some led, some st => some { success := b != 0, led := led, state := st }
  | _, _ => none

/-- Modelled from the spec: the wire format of a command frame is absent from
the repository (the spec leaves it open and suggests "a documented single-byte
opcode scheme"); we fix that scheme: one byte whose value is
`2 * ledValue led + stateValue state`, i.e. opcodes 0..7. -/
def encode (led : Led) (state : LedState) : List Nat :=
  [2 * ledValue led + stateValue state]

/-- Modelled from the spec: the decoding table of the single-byte opcode
scheme, the inverse of `encode` on the eight recognised opcode values. -/
def decodeByte (b : Nat) : Option (Led × LedState) :=
  match b with
  | 0 => some (Led1, On)
  | 1 => some (Led1, Off)
  | 2 => some (Led2, On)
  | 3 => some (Led2, Off)
  | 4 => some (Led3, On)
  | 5 => some (Led3, Off)
  | 6 => some (Led4, On)
  | 7 => some (Led4, Off)
  | _ => none

/-- The `Command` returned on a decoding failure.  The spec leaves the
`led`/`state` fields unspecified on failure; the model uses the
zero-initialised values (`success = false`, `led = Led1`, `state = On`). -/
def failCommand : Command :=
  { success := false, led := Led1, state := On }

/-- Guarded read of byte `i` of the buffer: `none` exactly when the index is
out of range of the in-memory buffer. -/
def readByte (buf : List Nat) (i : Nat) : Option Nat :=
  buf[i]?

/-- Modelled from the spec: the implementation of `parse_uart` is absent from
the repository (the header only declares its prototype).  Following the
spec's contract — reject `length == 0` and any unrecognised frame with
`success == false`, accept exactly the encoded `(Led, LedState)` frames,
never read past `length` bytes — the parser accepts exactly the one-byte
frames produced by `encode` and fails on everything else.  The buffer is a
list of byte values and `length` the declared frame length. -/
def parse_uart (buf : List Nat) (length : Nat) : Command :=
  if length = 1 then
    match readByte buf 0 with
    | some b =>
      match decodeByte b with
      | some p => { success := true, led := p.1, state := p.2 }
      | none => failCommand
    | none => failCommand
  else failCommand

/-- Modelled from the spec: the C call boundary as explicit state passing.
The caller lends the buffer for the duration of the call ("a non-owning
borrowed view"); the call produces a `Command` and hands the buffer back.
The spec states the computation is pure ("Side effects: none"), so the
buffer state after the call is the buffer state before it. -/
def parse_uart_call (buf : List Nat) (length : Nat) : Command × List Nat :=
  (parse_uart buf length, buf)

/-- Interpretation of an arbitrary integer argument at a C `uint32_t`
parameter: reduction modulo 2^32, yielding a non-negative value below 2^32. -/
def toUInt32Nat (i : Int) : Nat :=
  (i % (2 ^ 32 : Int)).toNat

/-- The `parse_uart` interface as declared in the header, with the
`uint32_t length` parameter interpreted from an arbitrary integer argument. -/
def parse_uart_c (buf : List Nat) (length : Int) : Command :=
  parse_uart buf (toUInt32Nat length)

/-- `encode` and `decodeByte` are mutually inverse on recognised opcodes. -/
theorem decodeByte_eq_some_iff (b : Nat) (l : Led) (s : LedState) :
    decodeByte b = some (l, s) ↔ encode l s = [b] := by
  constructor
  · intro h
    match b with
    | 0 => simp [decodeByte] at h; obtain ⟨rfl, rfl⟩ := h; rfl
    | 1 => simp [decodeByte] at h; obtain ⟨rfl, rfl⟩ := h; rfl
    | 2 => simp [decodeByte] at h; obtain ⟨rfl, rfl⟩ := h; rfl
    | 3 => simp [decodeByte] at h; obtain ⟨rfl, rfl⟩ := h; rfl
    | 4 => simp [decodeByte] at h; obtain ⟨rfl, rfl⟩ := h; rfl
    | 5 => simp [decodeByte] at h; obtain ⟨rfl, rfl⟩ := h; rfl
    | 6 => simp [decodeByte] at h; obtain ⟨rfl, rfl⟩ := h; rfl
    | 7 => simp [decodeByte] at h; obtain ⟨rfl, rfl⟩ := h; rfl
    | (n + 8) => simp [decodeByte] at h
  · intro h
    have hb : b = 2 * ledValue l + stateValue s := by
      have := List.head_eq_of_cons_eq h.symm
      omega
    subst hb
    cases l <;> cases s <;> rfl

/-- C1: encoding any `(led, state)` pair and parsing the resulting frame
returns `success = true` with exactly that pair. -/
theorem parse_uart_encode_roundtrip (led : Led) (state : LedState) :
    parse_uart (encode led state) (encode led state).length =
      { success := true, led := led, state := state } := by
  cases led <;> cases state <;> rfl

/-- C2: any frame that is not the encoding of a recognised pair parses to
`success = false`; the parser is a total function returning a `Command`, so
every decoding failure surfaces in the return value. -/
theorem parse_uart_unrecognized (buf : List Nat) (length : Nat)
    (h : ∀ (led : Led) (state : LedState), buf.take length ≠ encode led state) :
    (parse_uart buf length).success = false := by
  by_cases hl : length = 1
  · subst hl
    cases buf with
    | nil => simp [parse_uart, readByte, failCommand]
    | cons a t =>
      cases hd : decodeByte a with
      | none => simp [parse_uart, readByte, hd, failCommand]
      | some p =>
        obtain ⟨l, s⟩ := p
        exfalso
        apply h l s
        rw [(decodeByte_eq_some_iff a l s).mp hd]
        simp
  · simp [parse_uart, hl, failCommand]

theorem parse_uart_unrecognized_witness :
    (∀ (led : Led) (state : LedState), List.take 1 [9] ≠ encode led state) ∧
      (parse_uart [9] 1).success = false :=
  ⟨by decide, parse_uart_unrecognized [9] 1 (by decide)⟩

/-- C3: a zero-length frame always parses to `success = false`. -/
theorem parse_uart_zero_length (buf : List Nat) :
    (parse_uart buf 0).success = false := by
  simp [parse_uart, failCommand]

/-- C4: the parser reads only the first `length` bytes: its result depends
only on `buf.take length`, and on a buffer that holds at least `length`
bytes every read at an index below `length` is in range, so the
out-of-range `none` branch of `readByte` is unreachable. -/
theorem parse_uart_bounds_safe :
    (∀ (b₁ b₂ : List Nat) (length : Nat), b₁.take length = b₂.take length →
        parse_uart b₁ length = parse_uart b₂ length) ∧
      (∀ (buf : List Nat) (i length : Nat), length ≤ buf.length → i < length →
        readByte buf i ≠ none) := by
  constructor
  · intro b₁ b₂ length h
    by_cases hl : length = 1
    · subst hl
      cases b₁ with
      | nil => cases b₂ with
        | nil => rfl
        | cons a t => simp at h
      | cons a t => cases b₂ with
        | nil => simp at h
        | cons a₂ t₂ =>
          simp [List.take] at h
          subst h
          simp [parse_uart, readByte]
    · simp [parse_uart, hl]
  · intro buf i length hlen hi
    simp only [readByte, ne_eq, List.getElem?_eq_none_iff, not_le]
    omega

theorem parse_uart_bounds_safe_witness :
    (List.take 1 [3, 99] = List.take 1 [3] ∧
        parse_uart [3, 99] 1 = parse_uart [3] 1) ∧
      ((1 : Nat) ≤ List.length [3] ∧ (0 : Nat) < 1 ∧ readByte [3] 0 ≠ none) :=
  ⟨⟨by decide, parse_uart_bounds_safe.1 [3, 99] [3] 1 (by decide)⟩,
    ⟨by decide, by decide, parse_uart_bounds_safe.2 [3] 0 1 (by decide) (by decide)⟩⟩

/-- C5: the parser is a deterministic function of the buffer contents and the
length: two calls on equal inputs return equal `Command` values. -/
theorem parse_uart_deterministic (b₁ b₂ : List Nat) (l₁ l₂ : Nat)
    (hb : b₁ = b₂) (hl : l₁ = l₂) :
    parse_uart b₁ l₁ = parse_uart b₂ l₂ := by
  subst hb; subst hl; rfl

theorem parse_uart_deterministic_witness :
    ([2] : List Nat) = [2] ∧ (1 : Nat) = 1 ∧ parse_uart [2] 1 = parse_uart [2] 1 :=
  ⟨rfl, rfl, parse_uart_deterministic [2] [2] 1 1 rfl rfl⟩

/-- C6: the call has no side effects: embedded as a state transformer on the
borrowed buffer, it returns the pure parse result and leaves the buffer
exactly as it was. -/
theorem parse_uart_call_pure (buf : List Nat) (length : Nat) :
    (parse_uart_call buf length).2 = buf ∧
      (parse_uart_call buf length).1 = parse_uart buf length := by
  exact ⟨rfl, rfl⟩

/-- C7: the data model has exactly the declared shape: `Led` is a closed
enumeration of exactly the four distinct values `Led1`..`Led4`, `LedState`
of exactly the two distinct values `On` and `Off`, and `Command` is a record
determined by exactly its three fields `success`, `led`, `state`. -/
theorem data_model_shape :
    (∀ l : Led, l = Led1 ∨ l = Led2 ∨ l = Led3 ∨ l = Led4) ∧
      Fintype.card Led = 4 ∧
      (∀ s : LedState, s = On ∨ s = Off) ∧
      Fintype.card LedState = 2 ∧
      (∀ c : Command, c = Command.mk c.success c.led c.state) := by
  refine ⟨by decide, by decide, by decide, by decide, ?_⟩
  intro c
  cases c
  rfl

/-- C8: the enumerators take consecutive underlying values from 0: `Led1`..
`Led4` are 0..3 and `On = 0`, `Off = 1`; hence the all-zero field values
denote the command `{success = false, led = Led1, state = On}`, mapping the
zero bit pattern to `On`, not `Off`. -/
theorem enum_underlying_values :
    ledValue Led1 = 0 ∧ ledValue Led2 = 1 ∧ ledValue Led3 = 2 ∧
      ledValue Led4 = 3 ∧ stateValue On = 0 ∧ stateValue Off = 1 ∧
      (∀ l : Led, ledOfValue (ledValue l) = some l) ∧
      (∀ s : LedState, stateOfValue (stateValue s) = some s) ∧
      commandOfValues 0 0 0 =
        some { success := false, led := Led1, state := On } := by
  decide

/-- C9: every `Command`, in particular every one with `success = false`,
carries `led` and `state` fields holding values of the closed enumerations,
and any combination of field values is constructible: the type does not
enforce the "valid only if success" convention. -/
theorem command_fields_always_present :
    (∀ c : Command,
        (c.led = Led1 ∨ c.led = Led2 ∨ c.led = Led3 ∨ c.led = Led4) ∧
          (c.state = On ∨ c.state = Off)) ∧
      (∀ (b : Bool) (l : Led) (s : LedState),
        ∃ c : Command, c.success = b ∧ c.led = l ∧ c.state = s) := by
  refine ⟨?_, ?_⟩
  · intro c
    obtain ⟨b, l, s⟩ := c
    exact ⟨by cases l <;> simp, by cases s <;> simp⟩
  · intro b l s
    exact ⟨⟨b, l, s⟩, rfl, rfl, rfl⟩

/-- C10: the `length` parameter is a `uint32_t`: every integer argument is
interpreted modulo 2^32 into a non-negative value below 2^32, and the
declared interface cannot distinguish lengths that differ by 2^32. -/
theorem length_is_uint32 :
    (∀ i : Int, toUInt32Nat i < 2 ^ 32) ∧
      (∀ i : Int, 0 ≤ (toUInt32Nat i : Int)) ∧
      (∀ i : Int, toUInt32Nat (i + 2 ^ 32) = toUInt32Nat i) ∧
      (∀ (buf : List Nat) (i : Int),
        parse_uart_c buf (i + 2 ^ 32) = parse_uart_c buf i) := by
  have hmod : ∀ i : Int, toUInt32Nat (i + 2 ^ 32) = toUInt32Nat i := by
    intro i
    unfold toUInt32Nat
    omega
  refine ⟨?_, ?_, hmod, ?_⟩
  · intro i
    unfold toUInt32Nat
    omega
  · intro i
    exact Int.ofNat_nonneg _
  · intro buf i
    unfold parse_uart_c
    rw [hmod]
